import Mathlib

/-!
Shallow embedding of the `memory` C++ library: the tagged-pointer word
(`PtrTag`, src/PtrTag.h and src/unnamed/part_005), the lock-free segregated
free list (`SimpleSegregatedStorage`, src/SimpleSegregatedStorage.h/.cxx),
its memory-mapped variant (`MappedSegregatedStorage`, src/unnamed/part_004),
the bucketed deque resource (`DequeMemoryResource`, src/unnamed/part_000) and
the validation logic of the `MemoryMappedPool` constructor
(src/NodeMemoryPool.cxx).

Machine words (`std::uintptr_t`) are modelled as `Nat`; the 64-bit width
enters through `ptr_mask` (the two's-complement `~tag_mask`) and explicit
`< 2 ^ 64` hypotheses where truncation matters.  The in-place `m_next` fields
of free nodes are modelled as a heap `Nat → Nat`, with `0` playing the role of
`nullptr`.  Executions are single-threaded, so every `compare_exchange_weak`
succeeds on its first attempt and loops run exactly once per push/pop.
-/

namespace Memory

/-! ### PtrTag (src/PtrTag.h lines 44-68, src/unnamed/part_005 lines 144-171) -/

/-- PtrTag::tag_mask: the low two bits of the head word hold the ABA tag. -/
def tag_mask : Nat := 3

/-- PtrTag::ptr_mask = ~tag_mask on a 64-bit uintptr_t. -/
def ptr_mask : Nat := 2 ^ 64 - 4

/-- PtrTag::end_of_list: low bits set, high bits zero; denotes the empty list. -/
def end_of_list : Nat := tag_mask

/-- PtrTag::encode(ptr, tag): OR the raw pointer bits with (tag & tag_mask). -/
def encode (p t : Nat) : Nat := p ||| (t &&& tag_mask)

/-- PtrTag::ptr(): mask off the low bits of the encoded word. -/
def ptrOf (e : Nat) : Nat := e &&& ptr_mask

/-- PtrTag::tag(): extract the low bits of the encoded word. -/
def tagOf (e : Nat) : Nat := e &&& tag_mask

/-- PtrTag constructor PtrTag(FreeNode* node, uintptr_t tag): the encoded word
is encode(node, tag) for a non-null node and end_of_list for a null one. -/
def mkPtrTag (node t : Nat) : Nat := if node = 0 then end_of_list else encode node t

/-- PtrTag::next(): read the front node's m_next field from the heap and
re-encode it with the tag incremented by one (through the node/tag
constructor, so a null next yields end_of_list). -/
def ptrTagNext (heap : Nat → Nat) (e : Nat) : Nat :=
  mkPtrTag (heap (ptrOf e)) (tagOf e + 1)

/-! ### SimpleSegregatedStorage state and operations
(src/SimpleSegregatedStorage.h lines 103-143, src/SimpleSegregatedStorage.cxx) -/

/-- State of one segregated storage: the heap of FreeNode m_next fields
(`heap a` is the raw pointer stored at address `a`, 0 = nullptr) and the
atomic head word m_head_tag. -/
structure SSState where
  heap : Nat → Nat
  head : Nat

/-- SimpleSegregatedStorageBase::initialize: set the head word to
encode(head, 0) over a given heap (for the mapped pool the heap of a freshly
created file is all zero bytes). -/
def init_head (heap : Nat → Nat) (base : Nat) : SSState :=
  { heap := heap, head := encode base 0 }

/-- One successful pop of SimpleSegregatedStorageBase::allocate
(src/SimpleSegregatedStorage.h lines 111-121) in a single-threaded run:
if the head is end_of_list report empty, otherwise return the old head's
pointer and CAS the head to PtrTag::next of the old head. -/
def popStep (s : SSState) : Option (Nat × SSState) :=
  if s.head = end_of_list then none
  else some (ptrOf s.head, { s with head := ptrTagNext s.heap s.head })

/-- SimpleSegregatedStorageBase::deallocate (lines 129-143) in a
single-threaded run: store the old head's pointer into the freed node's
m_next slot and CAS the head to (node, old tag). -/
def deallocateStep (s : SSState) (p : Nat) : SSState :=
  { heap := fun a => if a = p then ptrOf s.head else s.heap a,
    head := mkPtrTag p (tagOf s.head) }

/-- SimpleSegregatedStorage::try_allocate_more (src/SimpleSegregatedStorage.cxx
lines 7-11): under the add-block mutex, return true if the head is no longer
end_of_list (short-circuit: the callback is not invoked and the state is
untouched), else return the callback's result.  The callback mutates the
storage (it calls add_block), so it is modelled as `SSState → Bool × SSState`. -/
def try_allocate_more (s : SSState) (add_new_block : SSState → Bool × SSState) :
    Bool × SSState :=
  if s.head ≠ end_of_list then (true, s) else add_new_block s

/-- SimpleSegregatedStorageBase::allocate with the SimpleSegregatedStorage
override of try_allocate_more, single-threaded; `fuel` bounds the outer-loop
iterations (each retry after a successful refill consumes one unit). -/
def sssAllocate (add_new_block : SSState → Bool × SSState) :
    Nat → SSState → Option Nat × SSState
  | 0, s => (none, s)
  | fuel + 1, s =>
    if s.head = end_of_list then
      let r := try_allocate_more s add_new_block
      if r.1 then sssAllocate add_new_block fuel r.2 else (none, r.2)
    else
      (some (ptrOf s.head), { s with head := ptrTagNext s.heap s.head })

/-- Writes performed by the threading loop of add_block
(src/SimpleSegregatedStorage.cxx lines 23-30): for every k < m the node at
`block + k * partition_size` gets m_next = `block + (k+1) * partition_size`.
The C++ loop walks from the last node down to the first; the written
addresses are pairwise distinct, so the write order is immaterial. -/
def thread_writes (heap : Nat → Nat) (block partition_size : Nat) :
    Nat → Nat → Nat
  | 0 => heap
  | m + 1 => fun a =>
    if a = block + m * partition_size then block + (m + 1) * partition_size
    else thread_writes heap block partition_size m a

/-- SimpleSegregatedStorage::add_block (src/SimpleSegregatedStorage.cxx lines
14-42): carve `block` (of block_size bytes) into
N = block_size / partition_size nodes, thread them in increasing address
order, point the last node's m_next at the current head's pointer, and CAS
the head to (first node, tag 0). -/
def add_block (s : SSState) (block block_size partition_size : Nat) : SSState :=
  let N := block_size / partition_size
  { heap := fun a =>
      if a = block + (N - 1) * partition_size then ptrOf s.head
      else thread_writes s.heap block partition_size (N - 1) a,
    head := mkPtrTag block 0 }

/-! ### MappedSegregatedStorage (src/unnamed/part_004 lines 37-66) -/

/-- MappedSegregatedStorage::allocate, single-threaded: like popStep, but if
the new head's pointer is null and the popped node is not the last block of
the mapped region, the real successor is the next block by address
arithmetic, tag-encoded with the tag incremented by one; at the region's end
the new head is end_of_list. -/
def mssAllocate (s : SSState) (mapped_base mapped_size block_size : Nat) :
    Option (Nat × SSState) :=
  if s.head = end_of_list then none
  else
    let front := ptrOf s.head
    let nh := ptrTagNext s.heap s.head
    let nh2 :=
      if ptrOf nh = 0 then
        if front + block_size = mapped_base + mapped_size then end_of_list
        else encode (front + block_size) (tagOf s.head + 1)
      else nh
    some (front, { s with head := nh2 })

/-- Iterate mssAllocate k times from a starting state (a failed allocate
leaves the state unchanged). -/
def mssRun (mapped_base mapped_size block_size : Nat) (s : SSState) : Nat → SSState
  | 0 => s
  | k + 1 =>
    match mssAllocate (mssRun mapped_base mapped_size block_size s k)
        mapped_base mapped_size block_size with
    | none => mssRun mapped_base mapped_size block_size s k
    | some x => x.2

/-! ### Free-list chains -/

/-- A null-terminated chain of free nodes: `IsChain heap p l` says that
starting from raw pointer `p` and following m_next fields yields exactly the
nodes `l` and then nullptr. -/
inductive IsChain (heap : Nat → Nat) : Nat → List Nat → Prop
  | nil : IsChain heap 0 []
  | cons {p : Nat} {l : List Nat} : p ≠ 0 → IsChain heap (heap p) l →
      IsChain heap p (p :: l)

/-- State reached by deallocate(p) immediately followed by a successful
allocate(): the heap carries deallocate's write to p's m_next slot, and the
head is PtrTag::next of the head deallocate published. -/
def pushPopState (s : SSState) (p : Nat) : SSState :=
  { heap := (deallocateStep s p).heap,
    head := ptrTagNext (deallocateStep s p).heap (deallocateStep s p).head }

/-! ### DequeMemoryResource (src/unnamed/part_000) -/

/-- Bucket table i2s (src/unnamed/part_000 line 42): block sizes as multiples
of the pointer width. -/
def i2s : List Nat := [8, 12, 18, 26, 38, 54, 78, 111, 158, 224, 318, 451]

/-- DequeMemoryResource::nmra_size: the number of buckets. -/
def nmra_size : Nat := 12

/-- index_to_size (src/unnamed/part_000 line 45): sizeof(void*) * i2s[n] on
the 64-bit platform the library targets (sizeof(void*) = 8). -/
def index_to_size (n : Nat) : Nat := 8 * i2s.getD n 0

/-- upper_size (src/unnamed/part_000 line 48): the largest size still served
by a bucket, index_to_size (nmra_size - 1). -/
def upper_size : Nat := index_to_size (nmra_size - 1)

/-- Modelled from the spec: DequeMemoryResource::size_to_index is only
declared and called in the source files given here (src/unnamed/part_000);
its body lives in DequeMemoryResource.h, which is missing.  The spec defines
the contract as: return the smallest index i with S_i ≥ n, written out here
against the concrete table S = [64, 96, 144, 208, 304, 432, 624, 888, 1264,
1792, 2544, 3608]. -/
def size_to_index (n : Nat) : Nat :=
  if n ≤ 64 then 0
  else if n ≤ 96 then 1
  else if n ≤ 144 then 2
  else if n ≤ 208 then 3
  else if n ≤ 304 then 4
  else if n ≤ 432 then 5
  else if n ≤ 624 then 6
  else if n ≤ 888 then 7
  else if n ≤ 1264 then 8
  else if n ≤ 1792 then 9
  else if n ≤ 2544 then 10
  else 11

/-- Where a DequeMemoryResource request is routed: either the host allocator
(malloc/free) or one of the m_node_memory_resources buckets. -/
inductive AllocRoute
  | host : Nat → AllocRoute
  | bucket : Nat → AllocRoute
  deriving DecidableEq

/-- DequeMemoryResource::allocate routing (src/unnamed/part_000 lines 52-64):
above upper_size forward to malloc, otherwise use bucket
size_to_index(number_of_bytes). -/
def dmr_allocate_route (number_of_bytes : Nat) : AllocRoute :=
  if number_of_bytes > upper_size then AllocRoute.host number_of_bytes
  else AllocRoute.bucket (size_to_index number_of_bytes)

/-- DequeMemoryResource::deallocate routing (src/unnamed/part_000 lines
66-77): same threshold on the caller-supplied byte count. -/
def dmr_deallocate_route (number_of_bytes : Nat) : AllocRoute :=
  if number_of_bytes > upper_size then AllocRoute.host number_of_bytes
  else AllocRoute.bucket (size_to_index number_of_bytes)

/-! ### MemoryMappedPool constructor (src/NodeMemoryPool.cxx lines 295-515) -/

/-- MemoryMappedPool::Mode (declared in the MemoryMappedPool header part of
src/NodeMemoryResource.h). -/
inductive Mode
  | persistent
  | copy_on_write
  | read_only
  deriving DecidableEq

/-- What std::filesystem::status reports about the named path. -/
inductive FileType
  | not_found
  | regular
  | other
  deriving DecidableEq

/-- Abstract view of the backing file before construction: its type, its
permission bits, its on-disk length, and whether its content is all zero
bytes. -/
structure FileView where
  ftype : FileType
  readable_perm : Bool
  writable_perm : Bool
  disk_size : Nat
  content_zero : Bool

/-- Classification of the constructor's failures, following the error-kind
taxonomy the spec assigns to each throw/assert site. -/
inductive CtorError
  | usage_error
  | filesystem_invalid
  | configuration_invalid
  | permissions_invalid
  deriving DecidableEq

/-- Result of a successful construction: the mapped length, the mmap flavour
(MAP_SHARED / PROT_WRITE), and whether every byte of the mapping initially
reads zero. -/
structure PoolOutcome where
  mapped_size : Nat
  shared_mapping : Bool
  write_mapping : Bool
  content_zero : Bool
  deriving DecidableEq

/-- MemoryMappedPool::MemoryMappedPool (src/NodeMemoryPool.cxx lines 295-515)
as a pure function of the file view and the arguments, with the external
syscalls (open, fallocate, mmap) assumed to succeed.  The ASSERT
preconditions abort at runtime and are modelled as usage_error; the throw
sites carry the error kind the spec assigns them.  content_zero of the
outcome records whether the mapping initially reads as zero bytes: a created
file is zeroed by fallocate, an existing file is zeroed only on the
persistent-with-zero_init path (FALLOC_FL_ZERO_RANGE); otherwise the mapping
shows the file's existing content. -/
def mmpConstruct (fv : FileView) (page_size block_size file_size : Nat)
    (mode : Mode) (zero_init : Bool) : Except CtorError PoolOutcome :=
  if block_size < 8 then Except.error CtorError.usage_error
  else if block_size % page_size ≠ 0 then Except.error CtorError.usage_error
  else if file_size % page_size ≠ 0 then Except.error CtorError.usage_error
  else if mode = Mode.read_only ∧ zero_init then Except.error CtorError.usage_error
  else
    let file_exists := fv.ftype ≠ FileType.not_found
    let file_is_regular := fv.ftype = FileType.regular
    let is_readable := file_is_regular ∧ fv.readable_perm
    let is_writable := file_is_regular ∧ fv.writable_perm
    if file_exists ∧ ¬(file_is_regular ∧ is_readable) then
      Except.error CtorError.filesystem_invalid
    else if ¬file_exists ∧ file_size = 0 then
      Except.error CtorError.configuration_invalid
    else if ¬file_exists ∧ mode = Mode.read_only then
      Except.error CtorError.configuration_invalid
    else if ¬file_exists ∧ mode = Mode.copy_on_write then
      Except.error CtorError.configuration_invalid
    else if file_exists ∧ ¬is_writable ∧ mode = Mode.persistent then
      Except.error CtorError.permissions_invalid
    else if file_exists ∧ ¬is_writable ∧ zero_init then
      Except.error CtorError.permissions_invalid
    else if ¬file_exists then
      Except.ok { mapped_size := file_size,
                  shared_mapping := mode = Mode.persistent,
                  write_mapping := mode ≠ Mode.read_only,
                  content_zero := true }
    else if file_size = 0 then
      if fv.disk_size % page_size ≠ 0 then Except.error CtorError.filesystem_invalid
      else Except.ok { mapped_size := fv.disk_size,
                       shared_mapping := mode = Mode.persistent,
                       write_mapping := mode ≠ Mode.read_only,
                       content_zero :=
                         if mode = Mode.persistent ∧ zero_init then true
                         else fv.content_zero }
    else if fv.disk_size ≠ file_size then Except.error CtorError.filesystem_invalid
    else Except.ok { mapped_size := file_size,
                     shared_mapping := mode = Mode.persistent,
                     write_mapping := mode ≠ Mode.read_only,
                     content_zero :=
                       if mode = Mode.persistent ∧ zero_init then true
                       else fv.content_zero }

/-! ### Bridge lemmas: bitwise operations against arithmetic -/

theorem tagOf_eq_mod (e : Nat) : tagOf e = e % 4 := by
  show e &&& tag_mask = e % 4
  have h := Nat.and_pow_two_sub_one_eq_mod e 2
  norm_num at h
  exact h

theorem encode_of_aligned {p : Nat} (t : Nat) (halign : p % 4 = 0) :
    encode p t = p + t % 4 := by
  have h4 : (2 : Nat) ^ 2 = 4 := by norm_num
  have hq : p = 2 ^ 2 * (p / 4) := by rw [h4]; omega
  have hb : t % 4 < 2 ^ 2 := by rw [h4]; omega
  calc encode p t = p ||| t % 4 := by
        show p ||| (t &&& tag_mask) = p ||| t % 4
        rw [show t &&& tag_mask = t % 4 from tagOf_eq_mod t]
    _ = 2 ^ 2 * (p / 4) ||| t % 4 := by rw [← hq]
    _ = 2 ^ 2 * (p / 4) + t % 4 := (Nat.mul_add_lt_is_or hb _).symm
    _ = p + t % 4 := by rw [← hq]

theorem ptrOf_add_of_aligned {p r : Nat} (halign : p % 4 = 0) (hlt : p < 2 ^ 64)
    (hr : r < 4) : ptrOf (p + r) = p := by
  have h4 : (2 : Nat) ^ 2 = 4 := by norm_num
  have hq : p = 2 ^ 2 * (p / 4) := by rw [h4]; omega
  have hq62 : p / 4 < 2 ^ 62 := by
    have h64 : (2 : Nat) ^ 64 = 4 * 2 ^ 62 := by norm_num
    omega
  have hmask : ptr_mask = 2 ^ 2 * (2 ^ 62 - 1) := by norm_num [ptr_mask]
  show (p + r) &&& ptr_mask = p
  apply Nat.eq_of_testBit_eq
  intro i
  rw [Nat.testBit_and, hmask, hq,
    Nat.testBit_mul_pow_two_add _ (show r < 2 ^ 2 by omega),
    Nat.testBit_mul_pow_two, Nat.testBit_mul_pow_two]
  rcases Nat.lt_or_ge i 2 with hi | hi
  · have : ¬ 2 ≤ i := by omega
    simp [this]
  · have hnot : ¬ i < 2 := by omega
    have h2i : 2 ≤ i := hi
    simp only [if_neg hnot, ge_iff_le, h2i, decide_eq_true_eq, Bool.true_and,
      Nat.testBit_two_pow_sub_one, decide_True]
    rcases Nat.lt_or_ge (i - 2) 62 with hw | hw
    · simp [hw]
    · have hfalse : (p / 4).testBit (i - 2) = false := by
        apply Nat.testBit_lt_two_pow
        exact Nat.lt_of_lt_of_le hq62 (Nat.pow_le_pow_right (by norm_num) hw)
      simp [hfalse]

theorem ptrOf_encode_of_aligned {p : Nat} (t : Nat) (halign : p % 4 = 0)
    (hlt : p < 2 ^ 64) : ptrOf (encode p t) = p := by
  rw [encode_of_aligned t halign]
  exact ptrOf_add_of_aligned halign hlt (by omega)

theorem tagOf_encode_of_aligned {p : Nat} (t : Nat) (halign : p % 4 = 0) :
    tagOf (encode p t) = t % 4 := by
  rw [encode_of_aligned t halign, tagOf_eq_mod]
  omega

theorem encode_ne_end_of_list {p : Nat} (t : Nat) (hp : p ≠ 0)
    (halign : p % 4 = 0) : encode p t ≠ end_of_list := by
  rw [encode_of_aligned t halign]
  show p + t % 4 ≠ 3
  omega

theorem encode_tag_congr (x t t' : Nat) (h : t % 4 = t' % 4) :
    encode x t = encode x t' := by
  show x ||| (t &&& tag_mask) = x ||| (t' &&& tag_mask)
  rw [show t &&& tag_mask = t % 4 from tagOf_eq_mod t,
    show t' &&& tag_mask = t' % 4 from tagOf_eq_mod t', h]

theorem ptrOf_end_of_list : ptrOf end_of_list = 0 := by decide

theorem ptrOf_aligned (e : Nat) : ptrOf e % 4 = 0 := by
  rw [← tagOf_eq_mod (ptrOf e)]
  show (e &&& ptr_mask) &&& tag_mask = 0
  rw [Nat.and_assoc, show ptr_mask &&& tag_mask = 0 by decide, Nat.and_zero]

theorem ptrOf_lt (e : Nat) : ptrOf e < 2 ^ 64 :=
  Nat.lt_of_le_of_lt Nat.and_le_right (by norm_num [ptr_mask])

theorem tagOf_lt (e : Nat) : tagOf e < 4 := by
  rw [tagOf_eq_mod]; omega

/-! ### C10: encode/decode round-trip and sentinel separation -/

/-- C10: for every non-null 4-aligned 64-bit pointer p and every tag value t,
ptr(encode(p, t)) = p, tag(encode(p, t)) = t mod 4, and encode(p, t) differs
from the end_of_list sentinel; decoding inverts encoding on aligned non-null
pointers and no valid encoded pair collides with the empty-list sentinel. -/
theorem C10_encode_decode (p t : Nat) (hp : p ≠ 0) (halign : p % 4 = 0)
    (hlt : p < 2 ^ 64) :
    ptrOf (encode p t) = p ∧ tagOf (encode p t) = t % 4 ∧
      encode p t ≠ end_of_list :=
  ⟨ptrOf_encode_of_aligned t halign hlt, tagOf_encode_of_aligned t halign,
    encode_ne_end_of_list t hp halign⟩

theorem C10_encode_decode_witness :
    ptrOf (encode 8 6) = 8 ∧ tagOf (encode 8 6) = 6 % 4 ∧
      encode 8 6 ≠ end_of_list :=
  C10_encode_decode 8 6 (by decide) (by decide) (by decide)

/-! ### C1: tag discipline of push and pop -/

/-- C1 (amended): a successful deallocate publishes a head encoding the freed
node with the same tag value as the head word it replaced.  A successful pop
whose popped node's next pointer is non-null (and 4-aligned, as the alignment
policy guarantees) publishes a head whose tag equals the replaced head's tag
plus one modulo 2^2; when the popped node's next pointer is null the
published head is the end_of_list sentinel (low bits 3), irrespective of the
replaced tag. -/
theorem C1_tag_discipline (s : SSState) (p : Nat) (hp : p ≠ 0)
    (halign : p % 4 = 0) (hlt : p < 2 ^ 64) :
    (ptrOf (deallocateStep s p).head = p ∧
      tagOf (deallocateStep s p).head = tagOf s.head) ∧
    (∀ p' s', popStep s = some (p', s') →
      (s.heap (ptrOf s.head) ≠ 0 → s.heap (ptrOf s.head) % 4 = 0 →
        tagOf s'.head = (tagOf s.head + 1) % 4) ∧
      (s.heap (ptrOf s.head) = 0 → s'.head = end_of_list)) := by
  constructor
  · have hhead : (deallocateStep s p).head = encode p (tagOf s.head) := by
      show mkPtrTag p (tagOf s.head) = _
      rw [mkPtrTag, if_neg hp]
    rw [hhead, ptrOf_encode_of_aligned _ halign hlt,
      tagOf_encode_of_aligned _ halign]
    exact ⟨rfl, Nat.mod_eq_of_lt (tagOf_lt s.head)⟩
  · intro p' s' hpop
    rw [popStep] at hpop
    split at hpop
    · exact absurd hpop (by simp)
    · have hs' : s' = { s with head := ptrTagNext s.heap s.head } := by
        injection hpop with h
        injection h with h1 h2
        exact h2.symm
      constructor
      · intro hnz halign2
        rw [hs']
        show tagOf (ptrTagNext s.heap s.head) = _
        rw [ptrTagNext, mkPtrTag, if_neg hnz,
          tagOf_encode_of_aligned _ halign2]
      · intro hz
        rw [hs']
        show ptrTagNext s.heap s.head = end_of_list
        rw [ptrTagNext, hz, mkPtrTag, if_pos rfl]

theorem C1_tag_discipline_witness :
    ptrOf (deallocateStep ⟨fun _ => 0, end_of_list⟩ 8).head = 8 ∧
      tagOf (deallocateStep ⟨fun _ => 0, end_of_list⟩ 8).head =
        tagOf end_of_list :=
  (C1_tag_discipline ⟨fun _ => 0, end_of_list⟩ 8 (by decide) (by decide)
    (by decide)).1

/-- C1 counterexample: with head = encode(8, 1) = 9 and the popped node's
next field null, the pop succeeds (returning node 8) but publishes the
end_of_list sentinel, whose tag bits are 3 and not
(tag + 1) mod 4 = 2 — so a successful pop does not always publish a head
whose tag is the replaced head's tag plus one modulo 2^2. -/
theorem C1_counterexample :
    popStep ⟨fun _ => 0, 9⟩ = some (8, ⟨fun _ => 0, end_of_list⟩) ∧
      tagOf end_of_list ≠ (tagOf 9 + 1) % 4 :=
  ⟨rfl, by decide⟩

/-! ### C5: DequeMemoryResource routing threshold -/

/-- C5: allocate(n) forwards to the host allocator exactly when
n > S_{K-1} = sizeof(void*) * 451 = upper_size; for every n ≤ upper_size,
including the boundary n = upper_size, it uses bucket size_to_index(n); and
deallocate(p, n) routes by the same threshold on the caller-supplied n. -/
theorem C5_bucket_routing (n : Nat) :
    upper_size = 8 * 451 ∧
    (dmr_allocate_route n = AllocRoute.host n ↔ upper_size < n) ∧
    (n ≤ upper_size →
      dmr_allocate_route n = AllocRoute.bucket (size_to_index n)) ∧
    dmr_deallocate_route n = dmr_allocate_route n ∧
    dmr_allocate_route upper_size =
      AllocRoute.bucket (size_to_index upper_size) := by
  refine ⟨rfl, ?_, ?_, ?_, ?_⟩
  · rw [dmr_allocate_route]
    split_ifs with h
    · simp [h]
    · simp only [gt_iff_lt] at h
      simp [h]
  · intro hle
    rw [dmr_allocate_route, if_neg (by omega)]
  · rw [dmr_allocate_route, dmr_deallocate_route]
  · rfl

theorem C5_bucket_routing_witness :
    dmr_allocate_route 3608 = AllocRoute.bucket (size_to_index 3608) :=
  (C5_bucket_routing 3608).2.2.1 (by decide)

/-! ### C6: size_to_index is the least fitting bucket, and is monotone -/

theorem size_to_index_char (n : Nat) :
    (n ≤ 64 ∧ size_to_index n = 0) ∨
    (64 < n ∧ n ≤ 96 ∧ size_to_index n = 1) ∨
    (96 < n ∧ n ≤ 144 ∧ size_to_index n = 2) ∨
    (144 < n ∧ n ≤ 208 ∧ size_to_index n = 3) ∨
    (208 < n ∧ n ≤ 304 ∧ size_to_index n = 4) ∨
    (304 < n ∧ n ≤ 432 ∧ size_to_index n = 5) ∨
    (432 < n ∧ n ≤ 624 ∧ size_to_index n = 6) ∨
    (624 < n ∧ n ≤ 888 ∧ size_to_index n = 7) ∨
    (888 < n ∧ n ≤ 1264 ∧ size_to_index n = 8) ∨
    (1264 < n ∧ n ≤ 1792 ∧ size_to_index n = 9) ∨
    (1792 < n ∧ n ≤ 2544 ∧ size_to_index n = 10) ∨
    (2544 < n ∧ size_to_index n = 11) := by
  by_cases h0 : n ≤ 64
  · exact Or.inl ⟨h0, by rw [size_to_index, if_pos h0]⟩
  by_cases h1 : n ≤ 96
  · exact Or.inr (Or.inl ⟨by omega, h1,
      by rw [size_to_index, if_neg h0, if_pos h1]⟩)
  by_cases h2 : n ≤ 144
  · exact Or.inr (Or.inr (Or.inl ⟨by omega, h2,
      by rw [size_to_index, if_neg h0, if_neg h1, if_pos h2]⟩))
  by_cases h3 : n ≤ 208
  · exact Or.inr (Or.inr (Or.inr (Or.inl ⟨by omega, h3,
      by rw [size_to_index, if_neg h0, if_neg h1, if_neg h2, if_pos h3]⟩)))
  by_cases h4 : n ≤ 304
  · exact Or.inr (Or.inr (Or.inr (Or.inr (Or.inl ⟨by omega, h4,
      by rw [size_to_index, if_neg h0, if_neg h1, if_neg h2, if_neg h3,
        if_pos h4]⟩))))
  by_cases h5 : n ≤ 432
  · exact Or.inr (Or.inr (Or.inr (Or.inr (Or.inr (Or.inl ⟨by omega, h5,
      by rw [size_to_index, if_neg h0, if_neg h1, if_neg h2, if_neg h3,
        if_neg h4, if_pos h5]⟩)))))
  by_cases h6 : n ≤ 624
  · exact Or.inr (Or.inr (Or.inr (Or.inr (Or.inr (Or.inr (Or.inl ⟨by omega, h6,
      by rw [size_to_index, if_neg h0, if_neg h1, if_neg h2, if_neg h3,
        if_neg h4, if_neg h5, if_pos h6]⟩))))))
  by_cases h7 : n ≤ 888
  · exact Or.inr (Or.inr (Or.inr (Or.inr (Or.inr (Or.inr (Or.inr (Or.inl
      ⟨by omega, h7,
      by rw [size_to_index, if_neg h0, if_neg h1, if_neg h2, if_neg h3,
        if_neg h4, if_neg h5, if_neg h6, if_pos h7]⟩)))))))
  by_cases h8 : n ≤ 1264
  · exact Or.inr (Or.inr (Or.inr (Or.inr (Or.inr (Or.inr (Or.inr (Or.inr
      (Or.inl ⟨by omega, h8,
      by rw [size_to_index, if_neg h0, if_neg h1, if_neg h2, if_neg h3,
        if_neg h4, if_neg h5, if_neg h6, if_neg h7, if_pos h8]⟩))))))))
  by_cases h9 : n ≤ 1792
  · exact Or.inr (Or.inr (Or.inr (Or.inr (Or.inr (Or.inr (Or.inr (Or.inr
      (Or.inr (Or.inl ⟨by omega, h9,
      by rw [size_to_index, if_neg h0, if_neg h1, if_neg h2, if_neg h3,
        if_neg h4, if_neg h5, if_neg h6, if_neg h7, if_neg h8,
        if_pos h9]⟩)))))))))
  by_cases h10 : n ≤ 2544
  · exact Or.inr (Or.inr (Or.inr (Or.inr (Or.inr (Or.inr (Or.inr (Or.inr
      (Or.inr (Or.inr (Or.inl ⟨by omega, h10,
      by rw [size_to_index, if_neg h0, if_neg h1, if_neg h2, if_neg h3,
        if_neg h4, if_neg h5, if_neg h6, if_neg h7, if_neg h8, if_neg h9,
        if_pos h10]⟩))))))))))
  · exact Or.inr (Or.inr (Or.inr (Or.inr (Or.inr (Or.inr (Or.inr (Or.inr
      (Or.inr (Or.inr (Or.inr ⟨by omega,
      by rw [size_to_index, if_neg h0, if_neg h1, if_neg h2, if_neg h3,
        if_neg h4, if_neg h5, if_neg h6, if_neg h7, if_neg h8, if_neg h9,
        if_neg h10]⟩))))))))))

theorem size_to_index_le (n : Nat) (h : n ≤ 3608) :
    n ≤ index_to_size (size_to_index n) := by
  have e0 : index_to_size 0 = 64 := rfl
  have e1 : index_to_size 1 = 96 := rfl
  have e2 : index_to_size 2 = 144 := rfl
  have e3 : index_to_size 3 = 208 := rfl
  have e4 : index_to_size 4 = 304 := rfl
  have e5 : index_to_size 5 = 432 := rfl
  have e6 : index_to_size 6 = 624 := rfl
  have e7 : index_to_size 7 = 888 := rfl
  have e8 : index_to_size 8 = 1264 := rfl
  have e9 : index_to_size 9 = 1792 := rfl
  have e10 : index_to_size 10 = 2544 := rfl
  have e11 : index_to_size 11 = 3608 := rfl
  rcases size_to_index_char n with ⟨hb, he⟩ | ⟨ha, hb, he⟩ | ⟨ha, hb, he⟩ |
    ⟨ha, hb, he⟩ | ⟨ha, hb, he⟩ | ⟨ha, hb, he⟩ | ⟨ha, hb, he⟩ | ⟨ha, hb, he⟩ |
    ⟨ha, hb, he⟩ | ⟨ha, hb, he⟩ | ⟨ha, hb, he⟩ | ⟨ha, he⟩ <;>
    rw [he] <;>
    simp only [e0, e1, e2, e3, e4, e5, e6, e7, e8, e9, e10, e11] <;>
    omega

theorem size_to_index_min (n j : Nat) (h : n ≤ index_to_size j) :
    size_to_index n ≤ j := by
  have e0 : index_to_size 0 = 64 := rfl
  have e1 : index_to_size 1 = 96 := rfl
  have e2 : index_to_size 2 = 144 := rfl
  have e3 : index_to_size 3 = 208 := rfl
  have e4 : index_to_size 4 = 304 := rfl
  have e5 : index_to_size 5 = 432 := rfl
  have e6 : index_to_size 6 = 624 := rfl
  have e7 : index_to_size 7 = 888 := rfl
  have e8 : index_to_size 8 = 1264 := rfl
  have e9 : index_to_size 9 = 1792 := rfl
  have e10 : index_to_size 10 = 2544 := rfl
  have e11 : index_to_size 11 = 3608 := rfl
  rcases Nat.lt_or_ge j 12 with hj | hj
  · rcases size_to_index_char n with ⟨hb, he⟩ | ⟨ha, hb, he⟩ | ⟨ha, hb, he⟩ |
      ⟨ha, hb, he⟩ | ⟨ha, hb, he⟩ | ⟨ha, hb, he⟩ | ⟨ha, hb, he⟩ |
      ⟨ha, hb, he⟩ | ⟨ha, hb, he⟩ | ⟨ha, hb, he⟩ | ⟨ha, hb, he⟩ | ⟨ha, he⟩ <;>
      (interval_cases j <;>
        simp only [e0, e1, e2, e3, e4, e5, e6, e7, e8, e9, e10, e11] at h <;>
        omega)
  · have hnone : i2s[j]? = none := by
      apply List.getElem?_eq_none
      show i2s.length ≤ j
      have hlen : i2s.length = 12 := rfl
      omega
    have hz : index_to_size j = 0 := by
      rw [index_to_size, List.getD_eq_getElem?_getD, hnone]
      rfl
    rw [hz] at h
    have hn : n = 0 := by omega
    subst hn
    rw [size_to_index, if_pos (by omega)]
    omega

/-- C6: for every request size n with 0 < n ≤ S_{K-1} = 3608,
size_to_index(n) is the smallest index i with S_i ≥ n (so the chosen
bucket's block size is at least n), and the mapping is monotone. -/
theorem C6_size_to_index_contract :
    (∀ n, 0 < n → n ≤ 3608 →
      n ≤ index_to_size (size_to_index n) ∧
      ∀ j, n ≤ index_to_size j → size_to_index n ≤ j) ∧
    (∀ a b, a ≤ b → b ≤ 3608 → size_to_index a ≤ size_to_index b) := by
  constructor
  · intro n _ h
    exact ⟨size_to_index_le n h, fun j hj => size_to_index_min n j hj⟩
  · intro a b hab hb
    exact size_to_index_min a (size_to_index b)
      (le_trans hab (size_to_index_le b hb))

theorem C6_size_to_index_contract_witness :
    100 ≤ index_to_size (size_to_index 100) ∧
      size_to_index 65 ≤ size_to_index 3608 :=
  ⟨(C6_size_to_index_contract.1 100 (by norm_num) (by norm_num)).1,
    C6_size_to_index_contract.2 65 3608 (by norm_num) (by norm_num)⟩

/-! ### C4: add_block threads a fresh chunk and publishes it with tag 0 -/

theorem thread_writes_at {heap : Nat → Nat} {block ps : Nat} (hps : 0 < ps)
    {m k : Nat} (hk : k < m) :
    thread_writes heap block ps m (block + k * ps) = block + (k + 1) * ps := by
  induction m with
  | zero => omega
  | succ m ih =>
    show (if block + k * ps = block + m * ps then block + (m + 1) * ps
        else thread_writes heap block ps m (block + k * ps)) =
      block + (k + 1) * ps
    by_cases hkm : k = m
    · subst hkm
      rw [if_pos rfl]
    · have hne : block + k * ps ≠ block + m * ps := by
        intro hcontra
        have hmul : k * ps = m * ps := by omega
        exact hkm (Nat.eq_of_mul_eq_mul_right hps hmul)
      rw [if_neg hne]
      exact ih (by omega)

/-- C4: add_block(chunk, chunk_size, block_size) with
N = chunk_size / block_size ≥ 2 threads the N nodes at chunk + k * block_size
into a chain in increasing address order, links the last node's next to the
previously published head pointer, and publishes a head encoding the chunk's
first node with tag zero; the minimum partition N = 2 still yields a
well-formed null-terminated list of exactly the 2 new nodes when the list was
empty.  (In the C++ source the chunk is called `block` and the per-node size
`partition_size`.) -/
theorem C4_add_block (s : SSState) (block bs ps : Nat) (hps : 0 < ps)
    (hblock : block ≠ 0) (hN : 2 ≤ bs / ps) :
    (∀ k, k < bs / ps - 1 →
      (add_block s block bs ps).heap (block + k * ps) = block + (k + 1) * ps) ∧
    (add_block s block bs ps).heap (block + (bs / ps - 1) * ps) =
      ptrOf s.head ∧
    (add_block s block bs ps).head = encode block 0 ∧
    (s.head = end_of_list → bs / ps = 2 →
      IsChain (add_block s block bs ps).heap block [block, block + ps]) := by
  have hlast : (add_block s block bs ps).heap (block + (bs / ps - 1) * ps) =
      ptrOf s.head := by
    show (if block + (bs / ps - 1) * ps = block + (bs / ps - 1) * ps
        then ptrOf s.head
        else thread_writes s.heap block ps (bs / ps - 1)
          (block + (bs / ps - 1) * ps)) = ptrOf s.head
    rw [if_pos rfl]
  have hmid : ∀ k, k < bs / ps - 1 →
      (add_block s block bs ps).heap (block + k * ps) =
        block + (k + 1) * ps := by
    intro k hk
    have hne : block + k * ps ≠ block + (bs / ps - 1) * ps := by
      intro hcontra
      have hmul : k * ps = (bs / ps - 1) * ps := by omega
      have := Nat.eq_of_mul_eq_mul_right hps hmul
      omega
    show (if block + k * ps = block + (bs / ps - 1) * ps then ptrOf s.head
        else thread_writes s.heap block ps (bs / ps - 1)
          (block + k * ps)) = block + (k + 1) * ps
    rw [if_neg hne]
    exact thread_writes_at hps hk
  refine ⟨hmid, hlast, ?_, ?_⟩
  · show mkPtrTag block 0 = encode block 0
    rw [mkPtrTag, if_neg hblock]
  · intro hh hN2
    have h0 : (add_block s block bs ps).heap block = block + ps := by
      have := hmid 0 (by omega)
      simpa using this
    have h1 : (add_block s block bs ps).heap (block + ps) = 0 := by
      have heq : block + (bs / ps - 1) * ps = block + ps := by
        rw [hN2]
        omega
      rw [heq] at hlast
      rw [hlast, hh, ptrOf_end_of_list]
    refine IsChain.cons hblock ?_
    rw [h0]
    refine IsChain.cons (by omega) ?_
    rw [h1]
    exact IsChain.nil

theorem C4_add_block_witness :
    IsChain (add_block ⟨fun _ => 0, end_of_list⟩ 8 8 4).heap 8 [8, 12] :=
  (C4_add_block ⟨fun _ => 0, end_of_list⟩ 8 8 4 (by decide) (by decide)
    (by decide)).2.2.2 rfl rfl

/-! ### C9: deallocate-then-allocate is LIFO and preserves the list -/

theorem IsChain_update {heap : Nat → Nat} {p v q : Nat} {l : List Nat}
    (hch : IsChain heap q l) :
    p ∉ l → IsChain (fun a => if a = p then v else heap a) q l := by
  induction hch with
  | nil => intro _; exact IsChain.nil
  | @cons q l hq hsub ih =>
    intro hp
    refine IsChain.cons hq ?_
    have hqp : q ≠ p := fun h => hp (h ▸ List.mem_cons_self q l)
    rw [if_neg hqp]
    exact ih (fun hmem => hp (List.mem_cons_of_mem _ hmem))

/-- C9: in a single-threaded execution, from any state whose free list is the
chain l (null-terminated, as every reachable list is) and any caller-held
block p (non-null, 4-aligned, not on the list), deallocate(p) immediately
followed by allocate() returns p, and the free list afterwards is the same
chain l, so the set of blocks on the list is unchanged by the pair. -/
theorem C9_lifo_roundtrip (s : SSState) (p : Nat) (l : List Nat) (hp : p ≠ 0)
    (halign : p % 4 = 0) (hlt : p < 2 ^ 64)
    (hchain : IsChain s.heap (ptrOf s.head) l) (hmem : p ∉ l) :
    popStep (deallocateStep s p) = some (p, pushPopState s p) ∧
      IsChain (pushPopState s p).heap (ptrOf (pushPopState s p).head) l := by
  have hdhead : (deallocateStep s p).head = encode p (tagOf s.head) := by
    show mkPtrTag p (tagOf s.head) = encode p (tagOf s.head)
    rw [mkPtrTag, if_neg hp]
  have hne : ¬((deallocateStep s p).head = end_of_list) := by
    rw [hdhead]
    exact encode_ne_end_of_list _ hp halign
  have hptr : ptrOf (deallocateStep s p).head = p := by
    rw [hdhead]
    exact ptrOf_encode_of_aligned _ halign hlt
  have hdp : (deallocateStep s p).heap p = ptrOf s.head := by
    show (if p = p then ptrOf s.head else s.heap p) = ptrOf s.head
    rw [if_pos rfl]
  have hstep : ptrTagNext (deallocateStep s p).heap (deallocateStep s p).head =
      mkPtrTag (ptrOf s.head) (tagOf (deallocateStep s p).head + 1) := by
    rw [ptrTagNext, hptr, hdp]
  constructor
  · rw [popStep, if_neg hne, hptr]
    rfl
  · show IsChain (deallocateStep s p).heap
      (ptrOf (ptrTagNext (deallocateStep s p).heap (deallocateStep s p).head)) l
    rw [hstep]
    by_cases hc : ptrOf s.head = 0
    · rw [hc] at hchain ⊢
      rw [mkPtrTag, if_pos rfl, ptrOf_end_of_list]
      cases hchain with
      | nil => exact IsChain.nil
      | cons hq _ => exact absurd rfl hq
    · rw [mkPtrTag, if_neg hc,
        ptrOf_encode_of_aligned _ (ptrOf_aligned s.head) (ptrOf_lt s.head)]
      exact IsChain_update hchain hmem

theorem C9_lifo_roundtrip_witness :
    popStep (deallocateStep ⟨fun _ => 0, end_of_list⟩ 8) =
      some (8, pushPopState ⟨fun _ => 0, end_of_list⟩ 8) ∧
      IsChain (pushPopState ⟨fun _ => 0, end_of_list⟩ 8).heap
        (ptrOf (pushPopState ⟨fun _ => 0, end_of_list⟩ 8).head) [] :=
  C9_lifo_roundtrip ⟨fun _ => 0, end_of_list⟩ 8 [] (by decide) (by decide)
    (by decide) (by rw [ptrOf_end_of_list]; exact IsChain.nil) (by simp)

/-! ### C3: out-of-memory is exactly a false refill under the mutex -/

/-- C3: AnonFreeList allocate returns null exactly when the refill callback
(invoked while the refill mutex is held and the head has been re-checked as
still empty) returns false; when the re-check under the mutex sees a
non-empty list, try_allocate_more returns true without invoking the callback
or changing the state, and the lock-free pop path is retried; when the
callback succeeds, the outer loop retries with the refilled state. -/
theorem C3_refill_contract (add_new_block : SSState → Bool × SSState)
    (s : SSState) (fuel : Nat) :
    (s.head = end_of_list → (add_new_block s).1 = false →
      sssAllocate add_new_block (fuel + 1) s = (none, (add_new_block s).2)) ∧
    (s.head = end_of_list → (add_new_block s).1 = true →
      sssAllocate add_new_block (fuel + 1) s =
        sssAllocate add_new_block fuel (add_new_block s).2) ∧
    (s.head ≠ end_of_list →
      try_allocate_more s add_new_block = (true, s) ∧
      sssAllocate add_new_block (fuel + 1) s =
        (some (ptrOf s.head), { s with head := ptrTagNext s.heap s.head })) := by
  have htam_empty : s.head = end_of_list →
      try_allocate_more s add_new_block = add_new_block s := by
    intro h
    rw [try_allocate_more, if_neg (by simp [h])]
  refine ⟨?_, ?_, ?_⟩
  · intro h hf
    rw [sssAllocate, if_pos h]
    simp only [htam_empty h, hf]
    simp
  · intro h ht
    rw [sssAllocate, if_pos h]
    simp only [htam_empty h, ht]
    simp
  · intro h
    refine ⟨by rw [try_allocate_more, if_pos h], ?_⟩
    rw [sssAllocate, if_neg h]

theorem C3_refill_contract_witness :
    sssAllocate (fun s => (false, s)) 1 ⟨fun _ => 0, end_of_list⟩ =
      (none, ⟨fun _ => 0, end_of_list⟩) :=
  (C3_refill_contract (fun s => (false, s)) ⟨fun _ => 0, end_of_list⟩ 0).1
    rfl rfl

/-! ### C2: MappedSegregatedStorage pop with a null next field -/

theorem mssAllocate_step_null (base bs N j t : Nat) (s : SSState)
    (hbase : base ≠ 0) (halign : base % 4 = 0) (hbs : 0 < bs)
    (hbs4 : bs % 4 = 0) (hfit : base + N * bs ≤ 2 ^ 64) (hj : j < N)
    (hhead : s.head = encode (base + j * bs) t)
    (hnull : s.heap (base + j * bs) = 0) :
    mssAllocate s base (N * bs) bs =
      some (base + j * bs,
        { s with head := if j + 1 = N then end_of_list
                         else encode (base + (j + 1) * bs) (t + 1) }) := by
  have hsm : (j + 1) * bs = j * bs + bs := Nat.succ_mul j bs
  have hmle : (j + 1) * bs ≤ N * bs := Nat.mul_le_mul_right bs (by omega)
  have hdvd : (base + j * bs) % 4 = 0 := by
    have h1 : 4 ∣ base := Nat.dvd_of_mod_eq_zero halign
    have h2 : 4 ∣ bs := Nat.dvd_of_mod_eq_zero hbs4
    have h3 : 4 ∣ base + j * bs := Nat.dvd_add h1 (h2.mul_left j)
    omega
  have hlt2 : base + j * bs < 2 ^ 64 := by omega
  have hfront : ptrOf s.head = base + j * bs := by
    rw [hhead]
    exact ptrOf_encode_of_aligned _ hdvd hlt2
  have hne : ¬(s.head = end_of_list) := by
    rw [hhead]
    exact encode_ne_end_of_list _ (by omega) hdvd
  have htag : tagOf s.head = t % 4 := by
    rw [hhead]
    exact tagOf_encode_of_aligned _ hdvd
  have hnh : ptrTagNext s.heap s.head = end_of_list := by
    rw [ptrTagNext, hfront, hnull, mkPtrTag, if_pos rfl]
  simp only [mssAllocate]
  rw [if_neg hne, hfront, hnh, ptrOf_end_of_list, if_pos rfl]
  by_cases hjn : j + 1 = N
  · subst hjn
    have hend : base + j * bs + bs = base + (j + 1) * bs := by omega
    rw [if_pos hend, if_pos rfl]
  · have hend : ¬(base + j * bs + bs = base + N * bs) := by
      intro hcontra
      have hmul : (j + 1) * bs = N * bs := by omega
      have := Nat.eq_of_mul_eq_mul_right hbs hmul
      omega
    rw [if_neg hend, if_neg hjn, htag,
      show base + j * bs + bs = base + (j + 1) * bs by omega,
      encode_tag_congr (base + (j + 1) * bs) (t % 4 + 1) (t + 1) (by omega)]

theorem mssRun_fresh (base bs N : Nat) (hbase : base ≠ 0)
    (halign : base % 4 = 0) (hbs : 0 < bs) (hbs4 : bs % 4 = 0)
    (hfit : base + N * bs ≤ 2 ^ 64) (hN : 0 < N) :
    ∀ k, k ≤ N →
      (∀ a, (mssRun base (N * bs) bs (init_head (fun _ => 0) base) k).heap a
        = 0) ∧
      (mssRun base (N * bs) bs (init_head (fun _ => 0) base) k).head =
        (if k = N then end_of_list else encode (base + k * bs) k) := by
  intro k
  induction k with
  | zero =>
    intro _
    refine ⟨fun a => rfl, ?_⟩
    rw [if_neg (by omega)]
    show encode base 0 = encode (base + 0 * bs) 0
    norm_num
  | succ k ih =>
    intro hk1
    obtain ⟨hheap, hhead⟩ := ih (by omega)
    rw [if_neg (by omega)] at hhead
    have hstep := mssAllocate_step_null base bs N k k _ hbase halign hbs hbs4
      hfit (by omega) hhead (hheap _)
    constructor
    · intro a
      rw [mssRun, hstep]
      exact hheap a
    · rw [mssRun, hstep]

/-- C2: on a MappedFreeList pop whose popped node (block j of the region)
reads a null next field, the new head encodes popped_node + block_size with
the tag incremented by one when the node is not the last block; when the
arithmetic successor reaches base + size the new head becomes end_of_list.
Consequently, on a freshly initialized all-zero region of N blocks, the k-th
allocate (k = 0, ..., N-1 here, i.e. the (k+1)-th call) returns
base + k * block_size, and after the N-th success the next allocate returns
null. -/
theorem C2_mapped_lazy_pop (base bs N : Nat) (hbase : base ≠ 0)
    (halign : base % 4 = 0) (hbs : 0 < bs) (hbs4 : bs % 4 = 0)
    (hfit : base + N * bs ≤ 2 ^ 64) (hN : 0 < N) :
    (∀ (s : SSState) (j t : Nat), j < N →
      s.head = encode (base + j * bs) t → s.heap (base + j * bs) = 0 →
      mssAllocate s base (N * bs) bs =
        some (base + j * bs,
          { s with head := if j + 1 = N then end_of_list
                           else encode (base + (j + 1) * bs) (t + 1) })) ∧
    (∀ k, k < N →
      mssAllocate (mssRun base (N * bs) bs (init_head (fun _ => 0) base) k)
          base (N * bs) bs =
        some (base + k * bs,
          mssRun base (N * bs) bs (init_head (fun _ => 0) base) (k + 1))) ∧
    mssAllocate (mssRun base (N * bs) bs (init_head (fun _ => 0) base) N)
        base (N * bs) bs = none := by
  refine ⟨?_, ?_, ?_⟩
  · intro s j t hj hhead hnull
    exact mssAllocate_step_null base bs N j t s hbase halign hbs hbs4 hfit hj
      hhead hnull
  · intro k hk
    obtain ⟨hheap, hhead⟩ :=
      mssRun_fresh base bs N hbase halign hbs hbs4 hfit hN k (by omega)
    rw [if_neg (by omega)] at hhead
    have hstep := mssAllocate_step_null base bs N k k _ hbase halign hbs hbs4
      hfit hk hhead (hheap _)
    rw [hstep, mssRun, hstep]
  · obtain ⟨_, hhead⟩ :=
      mssRun_fresh base bs N hbase halign hbs hbs4 hfit hN N (by omega)
    rw [if_pos rfl] at hhead
    rw [mssAllocate, if_pos hhead]

theorem C2_mapped_lazy_pop_witness :
    mssAllocate (mssRun 8 (2 * 4) 4 (init_head (fun _ => 0) 8) 2) 8 (2 * 4) 4
      = none :=
  (C2_mapped_lazy_pop 8 4 2 (by decide) (by decide) (by decide) (by decide)
    (by decide) (by decide)).2.2

/-! ### C7: a supplied file_size must match the existing file exactly -/

/-- C7: when the backing file exists (a readable regular file, and writable
whenever the mode or zero_init demands writing) and a nonzero file_size is
supplied, construction succeeds exactly when file_size equals the on-disk
length, and on a mismatch it fails with FilesystemInvalid, producing no pool
object. -/
theorem C7_supplied_size_must_match (fv : FileView)
    (page_size block_size file_size : Nat) (mode : Mode) (zero_init : Bool)
    (hbs1 : 8 ≤ block_size) (hbs2 : block_size % page_size = 0)
    (hfs2 : file_size % page_size = 0)
    (hmz : ¬(mode = Mode.read_only ∧ zero_init = true))
    (hreg : fv.ftype = FileType.regular) (hread : fv.readable_perm = true)
    (hwrite : fv.writable_perm = true ∨
      (mode ≠ Mode.persistent ∧ zero_init = false))
    (hfs : file_size ≠ 0) :
    ((∃ out, mmpConstruct fv page_size block_size file_size mode zero_init =
        Except.ok out) ↔ file_size = fv.disk_size) ∧
    (file_size ≠ fv.disk_size →
      mmpConstruct fv page_size block_size file_size mode zero_init =
        Except.error CtorError.filesystem_invalid) := by
  have hnlt : ¬(block_size < 8) := by omega
  have hmain : mmpConstruct fv page_size block_size file_size mode zero_init =
      if fv.disk_size ≠ file_size then
        Except.error CtorError.filesystem_invalid
      else Except.ok { mapped_size := file_size,
                       shared_mapping := decide (mode = Mode.persistent),
                       write_mapping := decide (mode ≠ Mode.read_only),
                       content_zero :=
                         if mode = Mode.persistent ∧ zero_init = true then true
                         else fv.content_zero } := by
    rcases hwrite with hw | ⟨hm, hz⟩
    · simp [mmpConstruct, hreg, hread, hw, hfs, hnlt, hbs2, hfs2, hmz]
    · simp [mmpConstruct, hreg, hread, hm, hz, hfs, hnlt, hbs2, hfs2, hmz]
  refine ⟨⟨?_, ?_⟩, ?_⟩
  · rintro ⟨out, hout⟩
    by_contra hneq
    rw [hmain, if_pos (Ne.symm hneq)] at hout
    exact Except.noConfusion hout
  · intro heq
    refine ⟨{ mapped_size := file_size,
              shared_mapping := decide (mode = Mode.persistent),
              write_mapping := decide (mode ≠ Mode.read_only),
              content_zero :=
                if mode = Mode.persistent ∧ zero_init = true then true
                else fv.content_zero }, ?_⟩
    rw [hmain, if_neg (not_not_intro heq.symm)]
  · intro hne
    rw [hmain, if_pos (Ne.symm hne)]

theorem C7_supplied_size_must_match_witness :
    mmpConstruct ⟨FileType.regular, true, true, 12288, true⟩ 4096 4096 8192
        Mode.persistent false =
      Except.error CtorError.filesystem_invalid :=
  (C7_supplied_size_must_match ⟨FileType.regular, true, true, 12288, true⟩
    4096 4096 8192 Mode.persistent false (by decide) (by decide) (by decide)
    (by decide) rfl rfl (Or.inl rfl) (by decide)).2 (by decide)

/-! ### C8: which accepted zero_init configurations actually zero the range -/

/-- C8 (amended): zero_init = true is accepted on file creation and, for an
existing readable and writable file, with both the persistent and the
copy_on_write mode; the backing range is zeroed on creation (fallocate of a
fresh file) and on the persistent path (FALLOC_FL_ZERO_RANGE), but on the
copy_on_write path no zeroing is performed and the mapping initially shows
the file's existing content. -/
theorem C8_zero_init_coverage (fv : FileView)
    (page_size block_size file_size : Nat)
    (hbs1 : 8 ≤ block_size) (hbs2 : block_size % page_size = 0)
    (hfs2 : file_size % page_size = 0) :
    (fv.ftype = FileType.not_found → file_size ≠ 0 →
      mmpConstruct fv page_size block_size file_size Mode.persistent true =
        Except.ok { mapped_size := file_size, shared_mapping := true,
                    write_mapping := true, content_zero := true }) ∧
    (fv.ftype = FileType.regular → fv.readable_perm = true →
      fv.writable_perm = true → file_size = 0 →
      fv.disk_size % page_size = 0 →
      mmpConstruct fv page_size block_size file_size Mode.persistent true =
        Except.ok { mapped_size := fv.disk_size, shared_mapping := true,
                    write_mapping := true, content_zero := true }) ∧
    (fv.ftype = FileType.regular → fv.readable_perm = true →
      fv.writable_perm = true → file_size = 0 →
      fv.disk_size % page_size = 0 →
      mmpConstruct fv page_size block_size file_size Mode.copy_on_write true =
        Except.ok { mapped_size := fv.disk_size, shared_mapping := false,
                    write_mapping := true,
                    content_zero := fv.content_zero }) := by
  have hnlt : ¬(block_size < 8) := by omega
  refine ⟨?_, ?_, ?_⟩
  · intro hnf hfs
    simp [mmpConstruct, hnf, hfs, hnlt, hbs2, hfs2]
  · intro hreg hread hw hfs0 hdp
    simp [mmpConstruct, hreg, hread, hw, hfs0, hnlt, hbs2, hfs2, hdp]
  · intro hreg hread hw hfs0 hdp
    simp [mmpConstruct, hreg, hread, hw, hfs0, hnlt, hbs2, hfs2, hdp]

theorem C8_zero_init_coverage_witness :
    mmpConstruct ⟨FileType.not_found, false, false, 0, false⟩ 4096 4096 8192
        Mode.persistent true =
      Except.ok { mapped_size := 8192, shared_mapping := true,
                  write_mapping := true, content_zero := true } :=
  (C8_zero_init_coverage ⟨FileType.not_found, false, false, 0, false⟩
    4096 4096 8192 (by decide) (by decide) (by decide)).1 rfl (by decide)

/-- C8 counterexample: an existing writable non-zero file opened with
mode = copy_on_write and zero_init = true is accepted, but the outcome's
mapping is not zeroed — it shows the file's existing content — contradicting
the claim that every accepted zero_init = true construction zeroes the
backing range. -/
theorem C8_counterexample :
    mmpConstruct ⟨FileType.regular, true, true, 4096, false⟩ 4096 4096 0
        Mode.copy_on_write true =
      Except.ok { mapped_size := 4096, shared_mapping := false,
                  write_mapping := true, content_zero := false } := rfl

end Memory
